import Mathlib

/-!
Verification of the EEPROM emulation repository.

The repository simulates a byte-addressable EEPROM backed by a file.  The
variants embedded here are:

* `Round` — `round.py` (also `test.py`, `review_4.py`): byte store with a
  per-address write-cycle (endurance) ledger, block/string operations and a
  modular checksum.  File contents are modelled as a function `Nat → Nat`
  (byte value at each address); the write-cycle ledger likewise.
* `Wonn` — `wonn.py`: byte store whose block write performs a single range
  check before writing the whole range.
* `Final` — `fiNAL.py`: the `SensorData` struct codec (`struct.pack "<Hff"`)
  and the `DataUnion` integer/float reinterpretation.
* `Eeprom` — `eeprom.py` / `wonn.py`: the `ctypes` `EEPROMStruct` record and
  its raw byte image.

Addresses are embedded as `Int` where the source checks `address < 0`.
Python's `value & 0xFF` on a non-negative int is `value % 256`.
-/

namespace Round

/-- `EEPROM_SIZE = 1024` from round.py. -/
def EEPROM_SIZE : Nat := 1024

/-- `MAX_WRITE_CYCLES = 1000` from round.py. -/
def MAX_WRITE_CYCLES : Nat := 1000

/-- The in-process state of round.py: the bytes of `eeprom.bin` and the
`write_cycles` ledger, both indexed by address. -/
structure State where
  mem : Nat → Nat
  cycles : Nat → Nat

/-- Outcome of `write_byte` in round.py: success, the "Address out of range!"
early return, or the "Max write cycles reached" early return. -/
inductive WriteResult where
  | ok
  | outOfRange
  | enduranceExhausted
deriving DecidableEq, Repr

/-- round.py `write_byte(address, value)`: bounds check, endurance check,
then store `value & 0xFF` at `address` and increment that address's
write-cycle count. -/
def write_byte (s : State) (address : Int) (value : Nat) : WriteResult × State :=
  if address < 0 ∨ (EEPROM_SIZE : Int) ≤ address then (.outOfRange, s)
  else if MAX_WRITE_CYCLES ≤ s.cycles address.toNat then (.enduranceExhausted, s)
  else (.ok,
    { mem := fun i => if i = address.toNat then value % 256 else s.mem i
      cycles := fun i => if i = address.toNat then s.cycles i + 1 else s.cycles i })

/-- round.py `read_byte(address)`: `None` when out of range, otherwise the
stored byte. -/
def read_byte (s : State) (address : Int) : Option Nat :=
  if address < 0 ∨ (EEPROM_SIZE : Int) ≤ address then none
  else some (s.mem address.toNat)

/-- round.py `write_bytes(start_address, data_list)`: one `write_byte` per
element at consecutive addresses (each with its own checks). -/
def write_bytes : State → Int → List Nat → State
  | s, _, [] => s
  | s, start, v :: rest => write_bytes (write_byte s start v).2 (start + 1) rest

/-- round.py `read_bytes(start_address, length)`: one `read_byte` per offset. -/
def read_bytes (s : State) (start : Int) (length : Nat) : List (Option Nat) :=
  (List.range length).map fun i : Nat => read_byte s (start + (i : Int))

/-- round.py `write_string(start_address, text)`: write the character codes,
then a 0x00 terminator when `start_address + len(text) < EEPROM_SIZE`.
The text is embedded as its list of character codes (`ord`). -/
def write_string (s : State) (start : Int) (text : List Nat) : State :=
  let s1 := write_bytes s start text
  if start + text.length < (EEPROM_SIZE : Int) then (write_byte s1 (start + text.length) 0).2
  else s1

/-- round.py `read_string(start_address, length)`: read `length` bytes and
keep only the non-`None` ones in the printable range 32..126, as codes. -/
def read_string (s : State) (start : Int) (length : Nat) : List Nat :=
  (read_bytes s start length).filterMap fun ob =>
    match ob with
    | some b => if 32 ≤ b ∧ b ≤ 126 then some b else none
    | none => none

/-- round.py `compute_checksum(start_address, length)`: sum of the non-`None`
bytes of the block, modulo 256. -/
def compute_checksum (s : State) (start : Int) (length : Nat) : Nat :=
  ((read_bytes s start length).foldl
    (fun acc ob => match ob with | some b => acc + b | none => acc) 0) % 256

/-- A freshly erased device: every byte 0xFF, every write count 0
(the state review_2.py/review_4.py create when no file exists). -/
def erased : State :=
  { mem := fun _ => 0xFF, cycles := fun _ => 0 }

/-- A device whose every address has consumed the whole endurance budget. -/
def atCeiling : State :=
  { mem := fun _ => 0xFF, cycles := fun _ => MAX_WRITE_CYCLES }

end Round

/-- A device state for the C6 counterexample: freshly erased bytes, but the
endurance budget of address 11 is already fully consumed. -/
def cellElevenExhausted : Round.State :=
  { mem := fun _ => 0xFF
    cycles := fun i => if i = 11 then Round.MAX_WRITE_CYCLES else 0 }

namespace Wonn

/-- `EEPROM_SIZE = 1024` from wonn.py. -/
def EEPROM_SIZE : Nat := 1024

/-- Outcome of `write_bytes` in wonn.py: success or the single
"Data exceeds EEPROM size" early return. -/
inductive WriteResult where
  | ok
  | outOfRange
deriving DecidableEq, Repr

/-- wonn.py `write_bytes(address, data_list)`: one range check over the whole
block before anything is written; on success the entire contiguous range is
replaced in a single `f.write(bytes(data_list))`.  (`bytes` requires every
value in 0..255; theorems about values assume that.) -/
def write_bytes (mem : Nat → Nat) (address : Nat) (data : List Nat) :
    WriteResult × (Nat → Nat) :=
  if EEPROM_SIZE < address + data.length then (.outOfRange, mem)
  else (.ok, fun j =>
    if address ≤ j ∧ j < address + data.length then data.getD (j - address) 0 else mem j)

end Wonn

namespace Final

/-- Little-endian serialization of `v` on `w` bytes, the layout `struct.pack`
uses for each `<`-format field: lowest byte first, byte `i` is
`v / 256^i % 256`. -/
def le_bytes : Nat → Nat → List Nat
  | 0, _ => []
  | w + 1, v => v % 256 :: le_bytes w (v / 256)

/-- Little-endian decoding of a byte list, the inverse direction
(`struct.unpack` of a `<`-format unsigned field). -/
def from_le : List Nat → Nat
  | [] => 0
  | b :: bs => b + 256 * from_le bs

/-- fiNAL.py `SensorData`: the C-like struct `{uint16_t id; float temperature;
float humidity}` serialized with format `"<Hff"`.  The two float fields are
embedded as their IEEE-754 binary32 bit patterns — exactly the 32 bits
`struct.pack "<f"` serializes for the field. -/
structure SensorData where
  sensor_id : Nat
  temperature : Nat
  humidity : Nat
deriving DecidableEq, Repr

/-- `SensorData.pack`: `struct.pack("<Hff", sensor_id, temperature, humidity)` —
2 bytes of id, 4 bytes of temperature, 4 bytes of humidity, each little-endian,
densely concatenated in declared order (`<` disables all alignment padding). -/
def SensorData.pack (r : SensorData) : List Nat :=
  le_bytes 2 r.sensor_id ++ le_bytes 4 r.temperature ++ le_bytes 4 r.humidity

/-- `SensorData.unpack`: `struct.unpack("<Hff", data)` raises `struct.error`
(here `none`) unless the input is exactly `calcsize("<Hff") = 10` bytes;
otherwise the three fields are decoded at offsets 0, 2 and 6. -/
def SensorData.unpack (bs : List Nat) : Option SensorData :=
  if bs.length = 2 + 4 + 4 then
    some { sensor_id := from_le (bs.take 2)
           temperature := from_le ((bs.drop 2).take 4)
           humidity := from_le ((bs.drop 2).drop 4) }
  else none

/-- The IEEE-754 binary32 value denoted by a 32-bit pattern, as an exact
rational (`none` for the exponent-255 patterns — infinities and NaNs — which
denote no rational).  Decoding a bit pattern involves no rounding, so the
rational is the exact value `struct.unpack "<f"` yields. -/
def float32_val (bits : Nat) : Option ℚ :=
  let s : Nat := bits / 2 ^ 31 % 2
  let e : Nat := bits / 2 ^ 23 % 2 ^ 8
  let m : Nat := bits % 2 ^ 23
  let sign : ℚ := if s = 1 then -1 else 1
  if e = 2 ^ 8 - 1 then none
  else if e = 0 then some (sign * ((m : ℚ) / 2 ^ 23) * (2 : ℚ) ^ (-(126 : Int)))
  else some (sign * (1 + (m : ℚ) / 2 ^ 23) * (2 : ℚ) ^ ((e : Int) - 127))

/-- fiNAL.py `DataUnion.as_float`:
`struct.unpack("<f", struct.pack("<I", self.value))[0]` — serialize the stored
integer as the 4 little-endian bytes of an unsigned 32-bit value, then
reinterpret those same 4 bytes as an IEEE-754 binary32 float. -/
def DataUnion.as_float (value : Nat) : Option ℚ :=
  float32_val (from_le (le_bytes 4 value))

end Final

namespace Eeprom

/-- eeprom.py / wonn.py `EEPROMStruct`: a `ctypes.Structure` with fields
`id : c_uint8`, `value : c_uint16`, `flag : c_uint8` (no `_pack_` override). -/
structure EEPROMStruct where
  id : Nat
  value : Nat
  flag : Nat
deriving DecidableEq, Repr

/-- `ctypes.sizeof(EEPROMStruct)`: with no `_pack_` attribute, `ctypes` lays a
structure out with native alignment — `value : c_uint16` (alignment 2) goes to
offset 2, leaving one padding byte after `id`, `flag` goes to offset 4, and the
total size is rounded up to the structure alignment: 6 bytes, not 4. -/
def EEPROMStruct.sizeofBytes : Nat := 6

/-- The `raw` view that `EEPROMUnion` exposes (`c_ubyte * sizeof(EEPROMStruct)`):
the 6 bytes of the natively aligned structure — `id` at offset 0, one padding
byte, `value` little-endian at offsets 2–3, `flag` at offset 4, one trailing
padding byte.  Padding bytes of a freshly constructed object are zero, and
`ctypes` truncates each assigned field to its declared width. -/
def EEPROMStruct.raw (r : EEPROMStruct) : List Nat :=
  [r.id % 256, 0, r.value % 256, r.value / 256 % 256, r.flag % 256, 0]

end Eeprom

namespace Round

theorem write_byte_ok (s : State) (a : Int) (v : Nat)
    (h0 : 0 ≤ a) (h1 : a < (EEPROM_SIZE : Int))
    (hc : s.cycles a.toNat < MAX_WRITE_CYCLES) :
    write_byte s a v =
      (.ok,
        { mem := fun i => if i = a.toNat then v % 256 else s.mem i
          cycles := fun i => if i = a.toNat then s.cycles i + 1 else s.cycles i }) := by
  unfold write_byte
  rw [if_neg, if_neg]
  · exact Nat.not_le.mpr hc
  · push_neg
    exact ⟨h0, h1⟩

theorem write_byte_mem_other (s : State) (a : Int) (v : Nat) (j : Nat)
    (hj : j ≠ a.toNat) : ((write_byte s a v).2).mem j = s.mem j := by
  unfold write_byte
  split
  · rfl
  · split
    · rfl
    · simp [hj]

theorem write_byte_cycles_other (s : State) (a : Int) (v : Nat) (j : Nat)
    (hj : j ≠ a.toNat) : ((write_byte s a v).2).cycles j = s.cycles j := by
  unfold write_byte
  split
  · rfl
  · split
    · rfl
    · simp [hj]

end Round

namespace Final

theorem le_bytes_length : ∀ (w v : Nat), (le_bytes w v).length = w
  | 0, _ => rfl
  | w + 1, v => by simp [le_bytes, le_bytes_length w]

theorem from_le_le_bytes : ∀ (w v : Nat), v < 256 ^ w → from_le (le_bytes w v) = v
  | 0, v, h => by
    simpa [le_bytes, from_le] using (Nat.lt_one_iff.mp (by simpa using h)).symm
  | w + 1, v, h => by
    have hdiv : v / 256 < 256 ^ w := by
      rw [Nat.div_lt_iff_lt_mul (by norm_num)]
      calc v < 256 ^ (w + 1) := h
        _ = 256 ^ w * 256 := by ring
    rw [le_bytes, from_le, from_le_le_bytes w (v / 256) hdiv, Nat.mod_add_div]

end Final

namespace Round

theorem foldl_addOpt_map_some : ∀ (l : List Nat) (acc : Nat),
    (l.map some).foldl (fun acc ob => match ob with | some b => acc + b | none => acc) acc
      = acc + l.sum
  | [], acc => by simp
  | x :: xs, acc => by
    simp only [List.map_cons, List.foldl_cons, List.sum_cons]
    rw [foldl_addOpt_map_some xs (acc + x)]
    ring

theorem write_byte_mem_ne (s : State) (a : Int) (v : Nat) (j : Nat)
    (hj : (j : Int) ≠ a) : ((write_byte s a v).2).mem j = s.mem j := by
  unfold write_byte
  by_cases h : a < 0 ∨ (EEPROM_SIZE : Int) ≤ a
  · rw [if_pos h]
  · rw [if_neg h]
    push_neg at h
    by_cases h2 : MAX_WRITE_CYCLES ≤ s.cycles a.toNat
    · rw [if_pos h2]
    · rw [if_neg h2]
      have hne : j ≠ a.toNat := by
        intro he
        exact hj (by rw [he, Int.toNat_of_nonneg h.1])
      simp [hne]

theorem write_byte_cycles_ne (s : State) (a : Int) (v : Nat) (j : Nat)
    (hj : (j : Int) ≠ a) : ((write_byte s a v).2).cycles j = s.cycles j := by
  unfold write_byte
  by_cases h : a < 0 ∨ (EEPROM_SIZE : Int) ≤ a
  · rw [if_pos h]
  · rw [if_neg h]
    push_neg at h
    by_cases h2 : MAX_WRITE_CYCLES ≤ s.cycles a.toNat
    · rw [if_pos h2]
    · rw [if_neg h2]
      have hne : j ≠ a.toNat := by
        intro he
        exact hj (by rw [he, Int.toNat_of_nonneg h.1])
      simp [hne]

theorem write_bytes_outside : ∀ (data : List Nat) (s : State) (start : Int) (j : Nat),
    ((j : Int) < start ∨ start + data.length ≤ (j : Int)) →
    (write_bytes s start data).mem j = s.mem j ∧
      (write_bytes s start data).cycles j = s.cycles j
  | [], _, _, _, _ => ⟨rfl, rfl⟩
  | v :: rest, s, start, j, h => by
    rw [List.length_cons] at h
    push_cast at h
    have hstep := write_bytes_outside rest (write_byte s start v).2 (start + 1) j
      (by omega)
    have hne : (j : Int) ≠ start := by omega
    rw [write_bytes]
    exact ⟨hstep.1.trans (write_byte_mem_ne s start v j hne),
      hstep.2.trans (write_byte_cycles_ne s start v j hne)⟩

theorem write_bytes_inside : ∀ (data : List Nat) (s : State) (start : Int),
    0 ≤ start → start + data.length ≤ (EEPROM_SIZE : Int) →
    (∀ i : Nat, i < data.length → s.cycles (start + (i : Int)).toNat < MAX_WRITE_CYCLES) →
    ∀ (i : Nat) (hi : i < data.length),
      (write_bytes s start data).mem (start + (i : Int)).toNat = data.get ⟨i, hi⟩ % 256
  | [], _, _, _, _, _, _, hi => absurd hi (by simp)
  | v :: rest, s, start, h0, h1, hc, i, hi => by
    rw [List.length_cons] at h1
    push_cast at h1
    have hSv : start < (EEPROM_SIZE : Int) := by omega
    have hc0 : s.cycles start.toNat < MAX_WRITE_CYCLES := by
      simpa using hc 0 (by simp)
    rw [write_bytes]
    match i with
    | 0 =>
      have hout := (write_bytes_outside rest (write_byte s start v).2 (start + 1)
        start.toNat (by left; rw [Int.toNat_of_nonneg h0]; omega)).1
      rw [show start + ((0 : Nat) : Int) = start by simp, hout,
        write_byte_ok s start v h0 hSv hc0]
      simp [List.get]
    | i' + 1 =>
      have haddr : start + ((i' + 1 : Nat) : Int) = (start + 1) + (i' : Int) := by
        push_cast; ring
      have hi' : i' < rest.length := by
        rw [List.length_cons] at hi
        omega
      have hcyc' : ∀ k : Nat, k < rest.length →
          ((write_byte s start v).2).cycles ((start + 1) + (k : Int)).toNat
            < MAX_WRITE_CYCLES := by
        intro k hk
        rw [write_byte_cycles_ne s start v _ (by
          rw [Int.toNat_of_nonneg (by omega)]
          omega)]
        have := hc (k + 1) (by rw [List.length_cons]; omega)
        rwa [show start + ((k + 1 : Nat) : Int) = (start + 1) + (k : Int) by
          push_cast; ring] at this
      have := write_bytes_inside rest (write_byte s start v).2 (start + 1)
        (by omega) (by omega) hcyc' i' hi'
      rw [haddr, this]
      rfl

theorem read_string_eq : ∀ (text : List Nat) (s : State) (start : Int),
    (∀ (i : Nat) (hi : i < text.length),
      read_byte s (start + (i : Int)) = some (text.get ⟨i, hi⟩)) →
    (∀ b ∈ text, 32 ≤ b ∧ b ≤ 126) →
    read_string s start text.length = text
  | [], _, _, _, _ => rfl
  | t :: rest, s, start, hread, hprint => by
    have hhead : read_byte s (start + ((0 : Nat) : Int)) = some t := hread 0 (by simp)
    have hp := hprint t (by simp)
    unfold read_string read_bytes
    rw [List.length_cons, List.range_succ_eq_map, List.map_cons, List.map_map,
      List.filterMap_cons, hhead]
    simp only [hp.1, hp.2, and_self, if_pos]
    have htail : (List.range rest.length).map
        ((fun i : Nat => read_byte s (start + (i : Int))) ∘ Nat.succ)
        = read_bytes s (start + 1) rest.length := by
      unfold read_bytes
      apply List.map_congr_left
      intro k _
      show read_byte s (start + ((k + 1 : Nat) : Int)) = read_byte s ((start + 1) + (k : Int))
      rw [show start + ((k + 1 : Nat) : Int) = (start + 1) + (k : Int) by push_cast; ring]
    rw [htail]
    have hIH := read_string_eq rest s (start + 1)
      (fun i hi => by
        have := hread (i + 1) (by rw [List.length_cons]; omega)
        rwa [show start + ((i + 1 : Nat) : Int) = (start + 1) + (i : Int) by
          push_cast; ring] at this)
      (fun b hb => hprint b (List.mem_cons_of_mem t hb))
    unfold read_string at hIH
    rw [hIH]

theorem read_bytes_in_range (s : State) (start : Int) (L : Nat)
    (h0 : 0 ≤ start) (h1 : start + L ≤ (EEPROM_SIZE : Int)) :
    read_bytes s start L =
      (List.range L).map fun i : Nat => some (s.mem (start + (i : Int)).toNat) := by
  unfold read_bytes
  apply List.map_congr_left
  intro i hi
  rw [List.mem_range] at hi
  unfold read_byte
  rw [if_neg (by push_neg; omega)]

end Round

/-- C1: for every in-range address `a` and value `v` in [0,255], `write_byte a v`
followed by `read_byte a` returns exactly `v` (on a device whose cell `a` still
has endurance budget, so the write is performed). -/
theorem write_then_read_byte (s : Round.State) (a : Int) (v : Nat)
    (h0 : 0 ≤ a) (h1 : a < (Round.EEPROM_SIZE : Int)) (hv : v ≤ 255)
    (hc : s.cycles a.toNat < Round.MAX_WRITE_CYCLES) :
    Round.read_byte (Round.write_byte s a v).2 a = some v := by
  rw [Round.write_byte_ok s a v h0 h1 hc]
  unfold Round.read_byte
  rw [if_neg (by push_neg; exact ⟨h0, h1⟩)]
  simp [Nat.mod_eq_of_lt (Nat.lt_succ_of_le hv)]

/-- Witness for C1: writing 200 at address 3 of the erased device reads back 200. -/
theorem write_then_read_byte_witness :
    (0 : Int) ≤ 3 ∧ (3 : Int) < (Round.EEPROM_SIZE : Int) ∧ 200 ≤ 255 ∧
      Round.erased.cycles (3 : Int).toNat < Round.MAX_WRITE_CYCLES ∧
      Round.read_byte (Round.write_byte Round.erased 3 200).2 3 = some 200 :=
  ⟨by decide, by decide, by decide, by decide,
    write_then_read_byte Round.erased 3 200 (by decide) (by decide) (by decide) (by decide)⟩

/-- C2: once an in-range address's write count has reached `MAX_WRITE_CYCLES`,
the next `write_byte` there returns the endurance rejection and leaves the whole
state (in particular the stored byte at that address) unchanged. -/
theorem write_byte_endurance_exhausted (s : Round.State) (a : Int) (v : Nat)
    (h0 : 0 ≤ a) (h1 : a < (Round.EEPROM_SIZE : Int))
    (hc : s.cycles a.toNat = Round.MAX_WRITE_CYCLES) :
    Round.write_byte s a v = (.enduranceExhausted, s) := by
  unfold Round.write_byte
  rw [if_neg (by push_neg; exact ⟨h0, h1⟩), if_pos (le_of_eq hc.symm)]

/-- Witness for C2: on a device at the endurance ceiling, writing 7 at address 5
is rejected and the state is unchanged. -/
theorem write_byte_endurance_exhausted_witness :
    (0 : Int) ≤ 5 ∧ (5 : Int) < (Round.EEPROM_SIZE : Int) ∧
      Round.atCeiling.cycles (5 : Int).toNat = Round.MAX_WRITE_CYCLES ∧
      Round.write_byte Round.atCeiling 5 7 = (.enduranceExhausted, Round.atCeiling) :=
  ⟨by decide, by decide, by decide,
    write_byte_endurance_exhausted Round.atCeiling 5 7 (by decide) (by decide) (by decide)⟩

/-- C3: a `write_byte` whose address is outside [0, EEPROM_SIZE) returns the
out-of-range rejection and leaves every byte of the store unchanged. -/
theorem write_byte_out_of_range (s : Round.State) (a : Int) (v : Nat)
    (h : a < 0 ∨ (Round.EEPROM_SIZE : Int) ≤ a) :
    (Round.write_byte s a v).1 = .outOfRange ∧
      ∀ i, ((Round.write_byte s a v).2).mem i = s.mem i := by
  unfold Round.write_byte
  rw [if_pos h]
  exact ⟨rfl, fun _ => rfl⟩

/-- Witness for C3: on the capacity-1024 device, `write_byte 1024 5` is rejected
out-of-range and (e.g.) byte 1023 is unchanged. -/
theorem write_byte_out_of_range_witness :
    ((1024 : Int) < 0 ∨ (Round.EEPROM_SIZE : Int) ≤ 1024) ∧
      (Round.write_byte Round.erased 1024 5).1 = .outOfRange ∧
      ((Round.write_byte Round.erased 1024 5).2).mem 1023 = Round.erased.mem 1023 :=
  ⟨by decide,
    (write_byte_out_of_range Round.erased 1024 5 (by decide)).1,
    (write_byte_out_of_range Round.erased 1024 5 (by decide)).2 1023⟩

/-- C10: `write_byte` never rejects a large value: for any `v` (also `v > 255`)
at an in-range address with endurance budget, the write succeeds and stores
`v % 256` (the `value & 0xFF` mask), which the next `read_byte` returns. -/
theorem write_byte_masks_value (s : Round.State) (a : Int) (v : Nat)
    (h0 : 0 ≤ a) (h1 : a < (Round.EEPROM_SIZE : Int))
    (hc : s.cycles a.toNat < Round.MAX_WRITE_CYCLES) :
    (Round.write_byte s a v).1 = .ok ∧
      Round.read_byte (Round.write_byte s a v).2 a = some (v % 256) := by
  rw [Round.write_byte_ok s a v h0 h1 hc]
  unfold Round.read_byte
  rw [if_neg (by push_neg; exact ⟨h0, h1⟩)]
  simp

/-- Witness for C10: writing 300 at address 5 of the erased device succeeds and
reads back 300 % 256 = 44. -/
theorem write_byte_masks_value_witness :
    (0 : Int) ≤ 5 ∧ (5 : Int) < (Round.EEPROM_SIZE : Int) ∧
      Round.erased.cycles (5 : Int).toNat < Round.MAX_WRITE_CYCLES ∧
      ((Round.write_byte Round.erased 5 300).1 = .ok ∧
        Round.read_byte (Round.write_byte Round.erased 5 300).2 5 = some (300 % 256)) :=
  ⟨by decide, by decide, by decide,
    write_byte_masks_value Round.erased 5 300 (by decide) (by decide) (by decide)⟩

/-- C8: when the text plus its terminator fit below `EEPROM_SIZE` (and the
touched cells have endurance budget), `write_string` stores the one-byte
character codes of the text followed by a single 0x00 terminator at
`start + len(text)`, and `read_string start (len text)` returns the text.
Instantiated at `write_string 100 "HELLO"` by the witness: `read_string 100 5`
is "HELLO" and the byte at address 105 is 0x00. -/
theorem write_string_spec (s : Round.State) (start : Int) (text : List Nat)
    (h0 : 0 ≤ start) (h1 : start + text.length < (Round.EEPROM_SIZE : Int))
    (hcyc : ∀ i : Nat, i ≤ text.length →
      s.cycles (start + (i : Int)).toNat < Round.MAX_WRITE_CYCLES)
    (hprint : ∀ b ∈ text, 32 ≤ b ∧ b ≤ 126) :
    Round.read_string (Round.write_string s start text) start text.length = text ∧
      (Round.write_string s start text).mem (start + (text.length : Int)).toNat = 0 := by
  have hws : Round.write_string s start text
      = (Round.write_byte (Round.write_bytes s start text)
          (start + (text.length : Int)) 0).2 := by
    unfold Round.write_string
    rw [if_pos h1]
  have hcycterm : (Round.write_bytes s start text).cycles
      (start + (text.length : Int)).toNat < Round.MAX_WRITE_CYCLES := by
    rw [(Round.write_bytes_outside text s start (start + (text.length : Int)).toNat
      (by right; rw [Int.toNat_of_nonneg (by omega)])).2]
    exact hcyc text.length le_rfl
  have hwb := Round.write_byte_ok (Round.write_bytes s start text)
    (start + (text.length : Int)) 0 (by omega) h1 hcycterm
  have hmem_term :
      (Round.write_string s start text).mem (start + (text.length : Int)).toNat = 0 := by
    rw [hws, hwb]
    simp
  have hmem_i : ∀ (i : Nat) (hi : i < text.length),
      (Round.write_string s start text).mem (start + (i : Int)).toNat
        = text.get ⟨i, hi⟩ := by
    intro i hi
    rw [hws,
      Round.write_byte_mem_ne (Round.write_bytes s start text)
        (start + (text.length : Int)) 0 _ (by
          rw [Int.toNat_of_nonneg (by omega)]
          omega),
      Round.write_bytes_inside text s start h0 (by omega)
        (fun k hk => hcyc k (le_of_lt hk)) i hi]
    exact Nat.mod_eq_of_lt (by
      have := (hprint _ (List.get_mem text i hi)).2
      omega)
  refine ⟨?_, hmem_term⟩
  apply Round.read_string_eq
  · intro i hi
    unfold Round.read_byte
    rw [if_neg (by push_neg; omega), hmem_i i hi]
  · exact hprint

/-- Witness for C8: on the erased device, `write_string 100 "HELLO"` (codes
[72, 69, 76, 76, 79]) reads back as "HELLO" via `read_string 100 5`, and the
byte at address 105 is the 0x00 terminator. -/
theorem write_string_spec_witness :
    (0 : Int) ≤ 100 ∧
      (100 : Int) + (([72, 69, 76, 76, 79] : List Nat).length : Int)
          < (Round.EEPROM_SIZE : Int) ∧
      (∀ i : Nat, i ≤ ([72, 69, 76, 76, 79] : List Nat).length →
        Round.erased.cycles ((100 : Int) + (i : Int)).toNat < Round.MAX_WRITE_CYCLES) ∧
      (∀ b ∈ ([72, 69, 76, 76, 79] : List Nat), 32 ≤ b ∧ b ≤ 126) ∧
      (Round.read_string (Round.write_string Round.erased 100 [72, 69, 76, 76, 79])
          100 ([72, 69, 76, 76, 79] : List Nat).length = [72, 69, 76, 76, 79] ∧
        (Round.write_string Round.erased 100 [72, 69, 76, 76, 79]).mem
          ((100 : Int) + (([72, 69, 76, 76, 79] : List Nat).length : Int)).toNat = 0) :=
  ⟨by decide, by decide, by decide, by decide,
    write_string_spec Round.erased 100 [72, 69, 76, 76, 79]
      (by decide) (by decide) (by decide) (by decide)⟩

set_option maxRecDepth 10000 in
/-- C7: for every in-range block, `compute_checksum` equals the sum of the
block's bytes reduced modulo 256; and the checksum of the whole freshly-erased
1024-byte store (all bytes 0xFF) equals `(1024 * 255) % 256`. -/
theorem compute_checksum_spec (s : Round.State) (start : Int) (L : Nat)
    (h0 : 0 ≤ start) (h1 : start + L ≤ (Round.EEPROM_SIZE : Int)) :
    Round.compute_checksum s start L =
      ((List.range L).map fun i : Nat => s.mem (start + (i : Int)).toNat).sum % 256 ∧
      Round.compute_checksum Round.erased 0 Round.EEPROM_SIZE =
        (Round.EEPROM_SIZE * 255) % 256 := by
  constructor
  · unfold Round.compute_checksum
    rw [Round.read_bytes_in_range s start L h0 h1]
    rw [show ((List.range L).map fun i : Nat => some (s.mem (start + (i : Int)).toNat))
        = ((List.range L).map fun i : Nat => s.mem (start + (i : Int)).toNat).map some by
      rw [List.map_map]; rfl]
    rw [Round.foldl_addOpt_map_some, Nat.zero_add]
  · decide

/-- Witness for C7: the checksum of the first 4 bytes of the erased device is
the sum of those bytes mod 256, and the whole-store conjunct holds. -/
theorem compute_checksum_spec_witness :
    (0 : Int) ≤ 0 ∧ (0 : Int) + (4 : Nat) ≤ (Round.EEPROM_SIZE : Int) ∧
      (Round.compute_checksum Round.erased 0 4 =
          ((List.range 4).map fun i : Nat =>
            Round.erased.mem ((0 : Int) + (i : Int)).toNat).sum % 256 ∧
        Round.compute_checksum Round.erased 0 Round.EEPROM_SIZE =
          (Round.EEPROM_SIZE * 255) % 256) :=
  ⟨by decide, by decide, compute_checksum_spec Round.erased 0 4 (by decide) (by decide)⟩

/-- Counterexample to C6 as stated: in round.py the block write
`write_bytes(10, [1, 2])` on a device whose cell 11 is endurance-exhausted
updates byte 10 (to 1) but leaves byte 11 unchanged (0xFF, not 2) — the range
is partially mutated although part of it was rejected. -/
theorem round_write_bytes_partial_counterexample :
    (Round.write_bytes cellElevenExhausted 10 [1, 2]).mem 10 = 1 ∧
      (Round.write_bytes cellElevenExhausted 10 [1, 2]).mem 11 = 0xFF ∧
      (0xFF : Nat) ≠ 2 := by
  refine ⟨?_, ?_, by decide⟩ <;> decide

/-- C6 amended: in wonn.py the block write is all-or-nothing — either the whole
range check fails and every byte of the store is unchanged, or every byte of
the range is updated and every byte outside it is unchanged.  (round.py's
`write_bytes` instead checks per byte and can partially mutate the store; see
the counterexample.) -/
theorem wonn_write_bytes_all_or_nothing (mem : Nat → Nat) (a : Nat) (data : List Nat) :
    ((Wonn.write_bytes mem a data).1 = .outOfRange ∧
        ∀ j, (Wonn.write_bytes mem a data).2 j = mem j) ∨
      ((Wonn.write_bytes mem a data).1 = .ok ∧
        (∀ i, i < data.length → (Wonn.write_bytes mem a data).2 (a + i) = data.getD i 0) ∧
        ∀ j, j < a ∨ a + data.length ≤ j → (Wonn.write_bytes mem a data).2 j = mem j) := by
  unfold Wonn.write_bytes
  by_cases h : Wonn.EEPROM_SIZE < a + data.length
  · left
    rw [if_pos h]
    exact ⟨rfl, fun _ => rfl⟩
  · right
    rw [if_neg h]
    refine ⟨rfl, fun i hi => ?_, fun j hj => ?_⟩
    · simp only []
      rw [if_pos ⟨Nat.le_add_right a i, by omega⟩, Nat.add_sub_cancel_left]
    · simp only []
      rw [if_neg (by omega)]

/-- Counterexample to C4 as stated: the ctypes record `EEPROMStruct` is NOT
densely packed.  For the record (id 1, value 515 = 0x0203, flag 4) the raw byte
image is `[1, 0, 3, 2, 4, 0]`: 6 bytes instead of the field-width sum 1+2+1 = 4,
and the byte after `id` is alignment padding (0), not the low byte of `value`. -/
theorem eeprom_struct_padding_counterexample :
    Eeprom.EEPROMStruct.raw ⟨1, 515, 4⟩ = [1, 0, 3, 2, 4, 0] ∧
      (Eeprom.EEPROMStruct.raw ⟨1, 515, 4⟩).length ≠ 1 + 2 + 1 ∧
      (Eeprom.EEPROMStruct.raw ⟨1, 515, 4⟩).getD 1 0 ≠ 515 % 256 := by
  refine ⟨rfl, by decide, by decide⟩

/-- C4 amended: the `struct.pack "<Hff"` record `SensorData` is densely packed:
`pack` yields exactly 2+4+4 = 10 bytes (no padding), and slicing at the offsets
determined by the preceding field widths (0, 2, 6) recovers each field's
little-endian encoding in declared order.  The ctypes `EEPROMStruct` record is
the exception: its native alignment inserts padding (see the counterexample). -/
theorem sensordata_pack_dense (r : Final.SensorData) :
    r.pack.length = 2 + 4 + 4 ∧
      r.pack.take 2 = Final.le_bytes 2 r.sensor_id ∧
      (r.pack.drop 2).take 4 = Final.le_bytes 4 r.temperature ∧
      (r.pack.drop 2).drop 4 = Final.le_bytes 4 r.humidity := by
  unfold Final.SensorData.pack
  have h2 : (Final.le_bytes 2 r.sensor_id).length = 2 := Final.le_bytes_length 2 _
  have h4 : (Final.le_bytes 4 r.temperature).length = 4 := Final.le_bytes_length 4 _
  have h4' : (Final.le_bytes 4 r.humidity).length = 4 := Final.le_bytes_length 4 _
  refine ⟨by simp [h2, h4, h4'], ?_, ?_, ?_⟩
  · rw [List.append_assoc, List.take_left' h2]
  · rw [List.append_assoc, List.drop_left' h2, List.take_left' h4]
  · rw [List.append_assoc, List.drop_left' h2, List.drop_left' h4]

/-- C5: for every record whose fields fit their declared widths,
`unpack (pack r) = r`, and `unpack` rejects (with `struct.error`, modelled as
`none`) every input that is not exactly the declared 10-byte width. -/
theorem sensordata_roundtrip (r : Final.SensorData)
    (hid : r.sensor_id < 256 ^ 2) (ht : r.temperature < 256 ^ 4)
    (hh : r.humidity < 256 ^ 4) :
    Final.SensorData.unpack r.pack = some r ∧
      ∀ bs : List Nat, bs.length ≠ 2 + 4 + 4 → Final.SensorData.unpack bs = none := by
  constructor
  · obtain ⟨hlen, htake, hmid, hdrop⟩ := sensordata_pack_dense r
    unfold Final.SensorData.unpack
    rw [if_pos hlen, htake, hmid, hdrop,
      Final.from_le_le_bytes 2 _ hid, Final.from_le_le_bytes 4 _ ht,
      Final.from_le_le_bytes 4 _ hh]
  · intro bs hbs
    unfold Final.SensorData.unpack
    rw [if_neg hbs]

/-- C9: the union's float view reads exactly the same 4 bytes as the unsigned
view: decoding the 4-byte little-endian span as a plain unsigned integer
recovers the stored value, and the float view is the IEEE-754 binary32
interpretation of that same bit pattern; in particular, after writing the
integer bit-pattern 0x42C80000, the float interpretation yields 100.0. -/
theorem union_reinterpretation (v : Nat) (h : v < 2 ^ 32) :
    Final.from_le (Final.le_bytes 4 v) = v ∧
      Final.DataUnion.as_float v = Final.float32_val v ∧
      Final.DataUnion.as_float 0x42C80000 = some 100 := by
  have h256 : v < 256 ^ 4 := by
    have he : (256 : Nat) ^ 4 = 2 ^ 32 := by norm_num
    omega
  have h1 := Final.from_le_le_bytes 4 v h256
  refine ⟨h1, ?_, ?_⟩
  · unfold Final.DataUnion.as_float
    rw [h1]
  · norm_num [Final.DataUnion.as_float, Final.float32_val, Final.from_le, Final.le_bytes]

/-- Witness for C9: instantiated at the bit pattern 0x42C80000, whose float
interpretation is 100.0. -/
theorem union_reinterpretation_witness :
    (0x42C80000 : Nat) < 2 ^ 32 ∧
      (Final.from_le (Final.le_bytes 4 0x42C80000) = 0x42C80000 ∧
        Final.DataUnion.as_float 0x42C80000 = Final.float32_val 0x42C80000 ∧
        Final.DataUnion.as_float 0x42C80000 = some 100) :=
  ⟨by decide, union_reinterpretation 0x42C80000 (by decide)⟩

/-- Witness for C5: the demo record (id 123, temperature bits 0x42120000,
humidity bits 0x429C6666) round-trips through pack/unpack. -/
theorem sensordata_roundtrip_witness :
    (123 : Nat) < 256 ^ 2 ∧ (0x42120000 : Nat) < 256 ^ 4 ∧ (0x429C6666 : Nat) < 256 ^ 4 ∧
      (Final.SensorData.unpack (Final.SensorData.pack ⟨123, 0x42120000, 0x429C6666⟩) =
          some ⟨123, 0x42120000, 0x429C6666⟩ ∧
        ∀ bs : List Nat, bs.length ≠ 2 + 4 + 4 → Final.SensorData.unpack bs = none) :=
  ⟨by decide, by decide, by decide,
    sensordata_roundtrip ⟨123, 0x42120000, 0x429C6666⟩ (by decide) (by decide) (by decide)⟩
